import Mathlib

/-!
Shallow embedding of the Battleship game engine from `script.js`.

Conventions of the embedding:
* JavaScript 2D board arrays become `List (List CellState)`; in-place
  mutation becomes returning the updated value.
* `Math.floor(Math.random() * 10)` draws become explicit `Fin 10` inputs,
  and the random index into a non-empty candidate list in `chooseAiMove`
  becomes an arbitrary `Nat` reduced modulo the list length.
* An out-of-bounds read `board[r]` that yields `undefined` (so that
  `board[r][c]` throws a TypeError) is modelled by `Option`: `none` marks
  the crash.  A read `row[c]` that yields `undefined` but is only compared
  (never indexed) is modelled by `Option` too, with the comparison made
  against `some` values, since `undefined !== "empty"` is true.
* DOM rendering, status text and the textual move log are presentation
  glue outside the engine and are not part of the state.
-/

namespace Battleship

/-- Cell states stored on each board position (`CELL_STATES`). -/
inductive CellState where
  | empty
  | ship
  | hit
  | miss
deriving DecidableEq, Repr

/-- A board is the JS 2D array `string[][]`. -/
abbrev Board := List (List CellState)

/-- `BOARD_SIZE = 10`. -/
def BOARD_SIZE : Nat := 10

/-- `createEmptyBoard(size)`: a size×size array of EMPTY cells. -/
def createEmptyBoard (size : Nat) : Board :=
  List.replicate size (List.replicate size CellState.empty)

/-- JS array indexing `a[i]` for a possibly negative index:
`undefined` (out of range or negative) is `none`. -/
def jsIndex {α : Type} (l : List α) (i : Int) : Option α :=
  if i < 0 then none else l[i.toNat]?

/-- Total read of `board[r][c]` used where the source code only ever
supplies in-range indices. -/
def getCell (board : Board) (r c : Nat) : CellState :=
  ((board[r]?.getD [])[c]?).getD CellState.empty

/-- `board[r][c] = v` (no-op beyond the array bounds, matching that the
source never writes out of range). -/
def setCell (board : Board) (r c : Nat) (v : CellState) : Board :=
  board.set r ((board[r]?.getD []).set c v)

/-- A `{row, col}` coordinate object with in-range (natural) components,
as stored in ship cell lists and AI memory. -/
structure Coord where
  row : Nat
  col : Nat
deriving DecidableEq, Repr

/-- A coordinate produced by candidate arithmetic in the AI, before
bounds filtering; components may be negative. -/
structure ICoord where
  row : Int
  col : Int
deriving DecidableEq, Repr

/-- A ship record `{ length, cells, sunk, isHorizontal }` plus the `id`
field the callers attach. -/
structure Ship where
  length : Nat
  cells : List Coord
  sunk : Bool
  isHorizontal : Bool
  id : Nat
deriving DecidableEq, Repr

/-- One entry of `SHIP_DEFS`. -/
structure ShipDef where
  id : Nat
  name : String
  length : Nat
deriving DecidableEq, Repr

/-- `SHIP_DEFS`: the five-ship catalog. -/
def SHIP_DEFS : List ShipDef :=
  [⟨0, "Carrier", 5⟩, ⟨1, "Battleship", 4⟩, ⟨2, "Cruiser", 3⟩,
   ⟨3, "Submarine", 3⟩, ⟨4, "Destroyer", 2⟩]

/-- The body of the `for` loop of `canPlaceShip`, iterating `i` from the
current index while `remaining` steps are left.  `none` models the
TypeError thrown by `board[r][c]` when `board[r]` is `undefined`
(negative or too-large row).  Note the source checks only the upper
bounds `r >= BOARD_SIZE || c >= BOARD_SIZE` before indexing. -/
def canPlaceShipFrom (board : Board) (startRow startCol : Int)
    (isHorizontal : Bool) : Nat → Nat → Option Bool
  | _, 0 => some true
  | i, remaining + 1 =>
    let r : Int := if isHorizontal then startRow else startRow + i
    let c : Int := if isHorizontal then startCol + i else startCol
    if r ≥ (BOARD_SIZE : Int) ∨ c ≥ (BOARD_SIZE : Int) then some false
    else
      match jsIndex board r with
      | none => none
      | some rowList =>
        if jsIndex rowList c ≠ some CellState.empty then some false
        else canPlaceShipFrom board startRow startCol isHorizontal (i + 1) remaining

/-- `canPlaceShip(board, length, startRow, startCol, isHorizontal)`.
Result `some b` is the boolean the function returns; `none` is the
TypeError crash on a negative (or too large) row index. -/
def canPlaceShip (board : Board) (length : Nat) (startRow startCol : Int)
    (isHorizontal : Bool) : Option Bool :=
  canPlaceShipFrom board startRow startCol isHorizontal 0 length

/-- `canPlaceShip` specialised to the natural-number coordinates used by
every in-game caller (random placement, rotation, drop on a 10×10 board),
where the crash case cannot arise; `getD false` is never exercised there. -/
def canPlaceShipN (board : Board) (length : Nat) (startRow startCol : Nat)
    (isHorizontal : Bool) : Bool :=
  (canPlaceShip board length startRow startCol isHorizontal).getD false

/-- The cell list a ship of the given length and orientation occupies
starting at `(startRow, startCol)`, in the order `placeShip` enumerates it. -/
def shipCells (length startRow startCol : Nat) (isHorizontal : Bool) : List Coord :=
  (List.range length).map fun i =>
    if isHorizontal then ⟨startRow, startCol + i⟩ else ⟨startRow + i, startCol⟩

/-- `placeShip(board, length, startRow, startCol, isHorizontal)`: marks each
target cell SHIP and returns the updated board together with the new ship
record (`id` is attached afterwards by every caller). -/
def placeShip (board : Board) (length startRow startCol : Nat)
    (isHorizontal : Bool) : Board × Ship :=
  let cells := shipCells length startRow startCol isHorizontal
  (cells.foldl (fun b c => setCell b c.row c.col CellState.ship) board,
   ⟨length, cells, false, isHorizontal, 0⟩)

/-- `removeShipFromBoard(board, ship)`: resets the ship's cells to EMPTY. -/
def removeShipFromBoard (board : Board) (ship : Ship) : Board :=
  ship.cells.foldl (fun b c => setCell b c.row c.col CellState.empty) board

/-- The `while (!placed && attempts < maxAttempts)` loop of
`placeAllShipsRandomly` for one ship: each attempt draws an orientation
and a start cell from the stream at time `t`.  Returns the board, the
placed ship (or `none` once the attempt cap is exhausted) and the next
stream position. -/
def tryPlaceShip (board : Board) (shipLength shipId : Nat)
    (draws : Nat → Bool × Fin 10 × Fin 10) (t : Nat) :
    Nat → Board × Option Ship × Nat
  | 0 => (board, none, t)
  | attemptsLeft + 1 =>
    let (isHorizontal, startRow, startCol) := draws t
    if canPlaceShipN board shipLength startRow.val startCol.val isHorizontal then
      let (b, ship) := placeShip board shipLength startRow.val startCol.val isHorizontal
      (b, some { ship with id := shipId }, t + 1)
    else
      tryPlaceShip board shipLength shipId draws (t + 1) attemptsLeft

/-- The per-ship `for` loop of `placeAllShipsRandomly`.  When a ship
exhausts its 200 attempts the source only logs a `console.error` and
moves on, so the failed ship is silently skipped here too. -/
def placeAllShipsGo (draws : Nat → Bool × Fin 10 × Fin 10) :
    Board → List ShipDef → Nat → List Ship → Board × List Ship
  | board, [], _, acc => (board, acc)
  | board, d :: rest, t, acc =>
    match tryPlaceShip board d.length d.id draws t 200 with
    | (b, some ship, t') => placeAllShipsGo draws b rest t' (acc ++ [ship])
    | (_, none, t') => placeAllShipsGo draws board rest t' acc

/-- `placeAllShipsRandomly(board)`: attempts to place every catalog ship,
consuming the random stream `draws`. -/
def placeAllShipsRandomly (board : Board)
    (draws : Nat → Bool × Fin 10 × Fin 10) : Board × List Ship :=
  placeAllShipsGo draws board SHIP_DEFS 0 []

/-- The two attack results the source can produce (`"hit"` / `"miss"`;
there is no third outcome in the code). -/
inductive Outcome where
  | hit
  | miss
deriving DecidableEq, Repr

/-- `checkShipSunk(board, ship)`: short-circuits on an already sunk ship,
otherwise tests whether every cell is HIT and, if so, sets the sunk flag.
Returns the (possibly updated) ship record and the boolean result. -/
def checkShipSunk (board : Board) (s : Ship) : Ship × Bool :=
  if s.sunk then (s, true)
  else
    let isSunk := s.cells.all fun c => getCell board c.row c.col = CellState.hit
    (if isSunk then { s with sunk := true } else s, isSunk)

/-- `checkAllSunk(ships)`: `ships.length > 0 && ships.every(s => s.sunk)`. -/
def checkAllSunk (ships : List Ship) : Bool :=
  decide (0 < ships.length) && ships.all (·.sunk)

/-- The `ships.find(...)` call of `resolveAttack`, as the index of the
first ship whose cell list contains `(row, col)` (the JS code then
mutates that ship object in place). -/
def findShipIdx (ships : List Ship) (row col : Nat) : Option Nat :=
  ships.findIdx? fun s => s.cells.any fun c => c.row == row && c.col == col

/-- Everything `resolveAttack` leaves behind: the mutated board and fleet
plus the returned `{ result, sunkShip }` object. -/
structure ResolveResult where
  board : Board
  ships : List Ship
  result : Outcome
  sunkShip : Option Ship
deriving DecidableEq, Repr

/-- `resolveAttack(board, ships, row, col)`.  Note the source has no
already-attacked guard: any cell that is not SHIP — including a HIT or
MISS cell — takes the miss branch and is (re)marked MISS. -/
def resolveAttack (board : Board) (ships : List Ship) (row col : Nat) :
    ResolveResult :=
  if getCell board row col = CellState.ship then
    let board' := setCell board row col CellState.hit
    match h : findShipIdx ships row col with
    | some i =>
      let hitShip := ships.get ⟨i, (List.findIdx?_eq_some_iff_findIdx_eq.mp h).1⟩
      let checked := checkShipSunk board' hitShip
      ⟨board', ships.set i checked.1, Outcome.hit,
        if checked.2 then some checked.1 else none⟩
    | none => ⟨board', ships, Outcome.hit, none⟩
  else
    ⟨setCell board row col CellState.miss, ships, Outcome.miss, none⟩

/-- `isValidAiTarget(row, col)` against the given player board: inside the
board and not yet attacked. -/
def isValidAiTarget (board : Board) (row col : Int) : Bool :=
  if row < 0 ∨ row ≥ (BOARD_SIZE : Int) ∨ col < 0 ∨ col ≥ (BOARD_SIZE : Int) then false
  else
    let s := getCell board row.toNat col.toNat
    s ≠ CellState.hit && s ≠ CellState.miss

/-- `getValidAdjacentCells(row, col)`: the four cardinal neighbours that
are valid targets.  The surviving cells are in-bounds, so their
coordinates convert back to naturals. -/
def getValidAdjacentCells (board : Board) (row col : Nat) : List Coord :=
  let directions : List ICoord :=
    [⟨(row : Int) - 1, col⟩, ⟨(row : Int) + 1, col⟩,
     ⟨row, (col : Int) - 1⟩, ⟨row, (col : Int) + 1⟩]
  (directions.filter fun d => isValidAiTarget board d.row d.col).map
    fun d => ⟨d.row.toNat, d.col.toNat⟩

/-- The candidate cells `getDirectionalCandidates` builds before the
final bounds/already-attacked filter: orientation from the first two
hits, hits sorted along that axis, one cell past each end. -/
def directionalProposals (confirmedHits : List Coord) : List ICoord :=
  if confirmedHits.length < 2 then []
  else
    let isHorizontal :=
      (confirmedHits.getD 0 ⟨0, 0⟩).row = (confirmedHits.getD 1 ⟨0, 0⟩).row
    let sorted := confirmedHits.insertionSort fun a b =>
      if isHorizontal then a.col ≤ b.col else a.row ≤ b.row
    let first := sorted.headD ⟨0, 0⟩
    let last := sorted.getLastD ⟨0, 0⟩
    if isHorizontal then
      [⟨first.row, (first.col : Int) - 1⟩, ⟨last.row, (last.col : Int) + 1⟩]
    else
      [⟨(first.row : Int) - 1, first.col⟩, ⟨(last.row : Int) + 1, last.col⟩]

/-- `getDirectionalCandidates(confirmedHits)`: the proposals filtered to
in-bounds, not-yet-attacked cells. -/
def getDirectionalCandidates (board : Board) (confirmedHits : List Coord) :
    List Coord :=
  ((directionalProposals confirmedHits).filter
      fun c => isValidAiTarget board c.row c.col).map
    fun c => ⟨c.row.toNat, c.col.toNat⟩

/-- AI mode: `"hunt"` or `"target"`. -/
inductive AiMode where
  | hunt
  | target
deriving DecidableEq, Repr

/-- `gameState.aiMemory`. -/
structure AiMemory where
  mode : AiMode
  candidateTargets : List Coord
  confirmedHits : List Coord
  lastMove : Option (Coord × Outcome)
deriving DecidableEq, Repr

/-- The `while (mem.candidateTargets.length > 0)` drain loop of
`chooseAiMove`: shift entries until one is still a valid target, dropping
the stale ones; returns the found cell and the remaining queue. -/
def drainQueue (board : Board) : List Coord → Option Coord × List Coord
  | [] => (none, [])
  | next :: rest =>
    if isValidAiTarget board next.row next.col then (some next, rest)
    else drainQueue board rest

/-- The hunt-mode candidate list: every not-yet-attacked in-bounds cell,
in the row-major order the nested `for` loops push them. -/
def huntAvailable (board : Board) : List Coord :=
  (List.range BOARD_SIZE).flatMap fun r =>
    (List.range BOARD_SIZE).filterMap fun c =>
      if isValidAiTarget board (Int.ofNat r) (Int.ofNat c) then
        some (⟨r, c⟩ : Coord)
      else none

/-- The hunt-mode tail of `chooseAiMove()`: pick a random untargeted
cell.  `k` stands for the `Math.random()` draw: the picked index
`Math.floor(Math.random() * available.length)` is modelled as
`k % available.length`. -/
def chooseAiMoveHunt (board : Board) (k : Nat) (m : AiMemory) :
    Option Coord × AiMemory :=
  if (huntAvailable board).isEmpty then (none, m)
  else
    (some (List.getD (huntAvailable board)
      (k % (huntAvailable board).length) ⟨0, 0⟩), m)

/-- The queue-draining section of `chooseAiMove()`: shift candidates
until a usable one appears; if the queue empties, flip to hunt mode and
use the hunt policy this turn. -/
def chooseAiMoveDrain (board : Board) (k : Nat) (m : AiMemory) :
    Option Coord × AiMemory :=
  match drainQueue board m.candidateTargets with
  | (some c, rest) => (some c, { m with candidateTargets := rest })
  | (none, _) =>
    chooseAiMoveHunt board k { m with candidateTargets := [], mode := AiMode.hunt }

/-- `chooseAiMove()` on the given player board and AI memory.  Returns
the chosen cell (or `none` when no cell is left) together with the
updated memory. -/
def chooseAiMove (board : Board) (mem : AiMemory) (k : Nat) :
    Option Coord × AiMemory :=
  if mem.mode = AiMode.target then
    if 2 ≤ mem.confirmedHits.length then
      match getDirectionalCandidates board mem.confirmedHits with
      | c :: _ => (some c, mem)
      | [] => chooseAiMoveDrain board k mem
    else chooseAiMoveDrain board k mem
  else chooseAiMoveHunt board k mem

/-- `resetAiTargeting()`: back to hunt mode with all memory cleared. -/
def resetAiTargeting : AiMemory :=
  ⟨AiMode.hunt, [], [], none⟩

/-- `updateAiTargetingState(row, col, result, sunkShip)` against the board
as it stands after the attack resolved. -/
def updateAiTargetingState (board : Board) (mem : AiMemory) (row col : Nat)
    (result : Outcome) (sunkShip : Option Ship) : AiMemory :=
  let mem := { mem with lastMove := some (⟨row, col⟩, result) }
  let mem :=
    if result = Outcome.hit then
      let mem := { mem with
        confirmedHits := mem.confirmedHits ++ [(⟨row, col⟩ : Coord)],
        mode := AiMode.target }
      let adjacents := getValidAdjacentCells board row col
      { mem with
        candidateTargets := adjacents.foldl
          (fun q adj => if q.any (· == adj) then q else q ++ [adj])
          mem.candidateTargets }
    else mem
  if sunkShip.isSome then resetAiTargeting else mem

/-- `PHASES`. -/
inductive Phase where
  | setup
  | playing
  | gameover
deriving DecidableEq, Repr

/-- `gameState.currentTurn`. -/
inductive Turn where
  | player
  | ai
deriving DecidableEq, Repr

/-- The engine part of `gameState` (the move-log text and DOM state are
presentation glue and carry no game rules). -/
structure GameState where
  phase : Phase
  currentTurn : Turn
  isGameStarted : Bool
  playerBoard : Board
  enemyBoard : Board
  playerShips : List Ship
  enemyShips : List Ship
  aiMemory : AiMemory
deriving DecidableEq, Repr

/-- `createGameState()`. -/
def createGameState : GameState :=
  ⟨Phase.setup, Turn.player, false,
   createEmptyBoard BOARD_SIZE, createEmptyBoard BOARD_SIZE,
   [], [], resetAiTargeting⟩

/-- The whole mutable environment the deferred opponent move interacts
with: the `gameState` variable plus the number of `setTimeout` callbacks
scheduled by `aiTurn` and not yet fired.  `resetGameState` replaces the
game object but never calls `clearTimeout`, so the count survives it. -/
structure SystemState where
  game : GameState
  pendingAi : Nat
deriving DecidableEq, Repr

/-- `resetGameState()`: a fresh `createGameState()`; the pending-timer
count is untouched because the source discards the `setTimeout` id. -/
def resetGameState (sys : SystemState) : SystemState :=
  { sys with game := createGameState }

/-- `handleRestart()` (also the game-over overlay button). -/
def handleRestart (sys : SystemState) : SystemState :=
  resetGameState sys

/-- The synchronous part of `aiTurn()`: bail out unless in play, then
flip the turn to the AI and schedule the deferred move. -/
def aiTurnSchedule (sys : SystemState) : SystemState :=
  if sys.game.phase ≠ Phase.playing then sys
  else
    { game := { sys.game with currentTurn := Turn.ai },
      pendingAi := sys.pendingAi + 1 }

/-- The `setTimeout` callback body of `aiTurn()`, firing one pending
timer (a fire without a pending timer cannot happen and is a no-op).
`k` is the hunt-mode random draw (see `chooseAiMove`). -/
def aiTurnFire (k : Nat) (sys : SystemState) : SystemState :=
  match sys.pendingAi with
  | 0 => sys
  | p + 1 =>
    let sys := { sys with pendingAi := p }
    if sys.game.phase ≠ Phase.playing then sys
    else
      match chooseAiMove sys.game.playerBoard sys.game.aiMemory k with
      | (none, mem') => { sys with game := { sys.game with aiMemory := mem' } }
      | (some target, mem') =>
        let res := resolveAttack sys.game.playerBoard sys.game.playerShips
          target.row target.col
        let mem'' := updateAiTargetingState res.board mem' target.row target.col
          res.result res.sunkShip
        let g := { sys.game with
          playerBoard := res.board, playerShips := res.ships, aiMemory := mem'' }
        if checkAllSunk g.playerShips then
          { sys with game := { g with phase := Phase.gameover } }
        else
          { sys with game := { g with currentTurn := Turn.player } }

/-- `handleEnemyBoardClick(row, col)`: the guards, the attack resolution
against the enemy board, win detection, and the trailing `aiTurn()` call. -/
def handleEnemyBoardClick (sys : SystemState) (row col : Nat) : SystemState :=
  if !sys.game.isGameStarted then sys
  else if sys.game.phase ≠ Phase.playing then sys
  else if sys.game.currentTurn ≠ Turn.player then sys
  else
    if getCell sys.game.enemyBoard row col = CellState.hit ∨
        getCell sys.game.enemyBoard row col = CellState.miss then sys
    else
      let res := resolveAttack sys.game.enemyBoard sys.game.enemyShips row col
      let g := { sys.game with enemyBoard := res.board, enemyShips := res.ships }
      if checkAllSunk g.enemyShips then
        { sys with game := { g with phase := Phase.gameover } }
      else
        aiTurnSchedule { sys with game := g }

/-- `handleRandomize()`: during setup, rebuild the player board and fleet
from the random stream. -/
def handleRandomize (sys : SystemState)
    (draws : Nat → Bool × Fin 10 × Fin 10) : SystemState :=
  if sys.game.phase ≠ Phase.setup then sys
  else
    let (board, ships) := placeAllShipsRandomly (createEmptyBoard BOARD_SIZE) draws
    { sys with game := { sys.game with playerBoard := board, playerShips := ships } }

/-- `handleStartGame()`: once all five ships are placed, generate the
enemy fleet and enter the playing phase with the player to move. -/
def handleStartGame (sys : SystemState)
    (draws : Nat → Bool × Fin 10 × Fin 10) : SystemState :=
  if sys.game.phase ≠ Phase.setup then sys
  else if sys.game.playerShips.length < SHIP_DEFS.length then sys
  else
    let (board, ships) := placeAllShipsRandomly (createEmptyBoard BOARD_SIZE) draws
    { sys with game := { sys.game with
        enemyBoard := board, enemyShips := ships,
        phase := Phase.playing, isGameStarted := true,
        currentTurn := Turn.player } }

/-- `handleRotateShip(shipIndex)`: lift the ship off the board, try the
toggled orientation from the same anchor cell, and either keep the
rotated ship or restore the original placement. -/
def handleRotateShip (g : GameState) (shipIndex : Nat) : GameState :=
  match g.playerShips[shipIndex]? with
  | none => g
  | some ship =>
    let startRow := (ship.cells.headD ⟨0, 0⟩).row
    let startCol := (ship.cells.headD ⟨0, 0⟩).col
    let newHorizontal := !ship.isHorizontal
    let board1 := removeShipFromBoard g.playerBoard ship
    if canPlaceShipN board1 ship.length startRow startCol newHorizontal then
      let (board2, rotated) := placeShip board1 ship.length startRow startCol newHorizontal
      { g with playerBoard := board2,
               playerShips := g.playerShips.set shipIndex { rotated with id := ship.id } }
    else
      let (board2, restored) := placeShip board1 ship.length startRow startCol ship.isHorizontal
      { g with playerBoard := board2,
               playerShips := g.playerShips.set shipIndex { restored with id := ship.id } }

/-- A sequence of `resolveAttack` calls against one board and fleet,
returning the final board and fleet together with the per-call
`{ result, sunkShip }` returns, in call order. -/
def runAttacks (board : Board) (ships : List Ship) :
    List Coord → Board × List Ship × List (Outcome × Option Ship)
  | [] => (board, ships, [])
  | m :: ms =>
    let res := resolveAttack board ships m.row m.col
    let rest := runAttacks res.board res.ships ms
    (rest.1, rest.2.1, (res.result, res.sunkShip) :: rest.2.2)

/-- One step of a running game: a player click on the enemy board, or the
deferred opponent move firing. -/
inductive GameStep : SystemState → SystemState → Prop
  | click (sys : SystemState) (row col : Nat) :
      GameStep sys (handleEnemyBoardClick sys row col)
  | fire (sys : SystemState) (k : Nat) :
      GameStep sys (aiTurnFire k sys)

/-! ### Board lemmas -/

/-- A board with the shape `createEmptyBoard BOARD_SIZE` produces:
10 rows of 10 cells. -/
def WF (b : Board) : Prop :=
  b.length = BOARD_SIZE ∧ ∀ row ∈ b, row.length = BOARD_SIZE

theorem WF_createEmptyBoard : WF (createEmptyBoard BOARD_SIZE) := by
  constructor
  · simp [createEmptyBoard]
  · intro row hrow
    simp only [createEmptyBoard, List.mem_replicate] at hrow
    simp [hrow.2]

theorem WF_row_length {b : Board} (hWF : WF b) {r : Nat} (hr : r < BOARD_SIZE) :
    (b[r]?.getD []).length = BOARD_SIZE := by
  obtain ⟨hlen, hrows⟩ := hWF
  have hr' : r < b.length := by omega
  rw [List.getElem?_eq_getElem hr']
  exact hrows _ (List.getElem_mem hr')

theorem WF_setCell {b : Board} (hWF : WF b) (r c : Nat) (v : CellState) :
    WF (setCell b r c v) := by
  obtain ⟨hlen, hrows⟩ := hWF
  rcases Nat.lt_or_ge r b.length with hr | hr
  · refine ⟨by simp [setCell, hlen], ?_⟩
    intro row hrow
    rcases List.mem_or_eq_of_mem_set hrow with h | h
    · exact hrows _ h
    · subst h
      rw [List.length_set, List.getElem?_eq_getElem hr]
      exact hrows _ (List.getElem_mem hr)
  · unfold setCell
    rw [List.set_eq_of_length_le hr]
    exact ⟨hlen, hrows⟩

theorem getCell_setCell_ne {b : Board} {r c r' c' : Nat} (v : CellState)
    (h : r ≠ r' ∨ c ≠ c') :
    getCell (setCell b r c v) r' c' = getCell b r' c' := by
  unfold getCell setCell
  rcases Nat.decEq r r' with hr | hr
  · rw [List.getElem?_set_ne hr]
  · subst hr
    rcases h with h | h
    · exact absurd rfl h
    · rcases Nat.lt_or_ge r b.length with hlt | hge
      · rw [List.getElem?_set_eq_of_lt _ hlt]
        simp only [Option.getD_some]
        rw [List.getElem?_set_ne h]
      · rw [List.set_eq_of_length_le hge]

theorem getCell_setCell_eq {b : Board} (hWF : WF b) {r c : Nat}
    (hr : r < BOARD_SIZE) (hc : c < BOARD_SIZE) (v : CellState) :
    getCell (setCell b r c v) r c = v := by
  have hrlen : r < b.length := by
    obtain ⟨hlen, _⟩ := hWF
    omega
  have hclen : c < (b[r]?.getD []).length := by
    rw [WF_row_length hWF hr]; omega
  unfold getCell setCell
  rw [List.getElem?_set_eq_of_lt _ hrlen]
  simp only [Option.getD_some]
  rw [List.getElem?_set_eq_of_lt _ hclen]
  rfl

theorem WF_foldl_setCell {cells : List Coord} (v : CellState) :
    ∀ {b : Board}, WF b →
      WF (cells.foldl (fun acc p => setCell acc p.row p.col v) b) := by
  induction cells with
  | nil => intro b hWF; exact hWF
  | cons p rest ih => intro b hWF; exact ih (WF_setCell hWF _ _ _)

theorem getCell_foldl_setCell {cells : List Coord} (v : CellState) :
    ∀ {b : Board}, WF b →
      (∀ p ∈ cells, p.row < BOARD_SIZE ∧ p.col < BOARD_SIZE) →
      ∀ (r c : Nat),
        getCell (cells.foldl (fun acc p => setCell acc p.row p.col v) b) r c
          = if (⟨r, c⟩ : Coord) ∈ cells then v else getCell b r c := by
  induction cells with
  | nil => intro b _ _ r c; simp
  | cons p rest ih =>
    intro b hWF hin r c
    simp only [List.foldl_cons]
    rw [ih (WF_setCell hWF _ _ _) (fun q hq => hin q (List.mem_cons_of_mem _ hq)) r c]
    by_cases hmem : (⟨r, c⟩ : Coord) ∈ rest
    · simp [hmem]
    · by_cases hp : (⟨r, c⟩ : Coord) = p
      · have hpr : p.row = r := by rw [← hp]
        have hpc : p.col = c := by rw [← hp]
        subst hpr hpc
        have := getCell_setCell_eq hWF (hin p (List.mem_cons_self _ _)).1
          (hin p (List.mem_cons_self _ _)).2 v
        simp [hmem, hp, this]
      · have hne : p.row ≠ r ∨ p.col ≠ c := by
          by_contra hcon
          push_neg at hcon
          exact hp (by cases p; simp_all)
        rw [getCell_setCell_ne v hne]
        simp [hmem, hp]

theorem set_get?_self {α : Type} :
    ∀ (l : List α) (i : Nat) (a : α), l[i]? = some a → l.set i a = l := by
  intro l
  induction l with
  | nil => intro i a h; simp at h
  | cons x xs ih =>
    intro i a h
    cases i with
    | zero => simp at h; simp [h]
    | succ n => simp at h ⊢; exact ih n a h

/-! ### Attack-resolution lemmas -/

theorem findIdx?_congr {α : Type} (p : α → Bool) :
    ∀ (l₁ l₂ : List α), l₁.length = l₂.length →
      (∀ k : Nat, l₁[k]?.map p = l₂[k]?.map p) →
      l₁.findIdx? p = l₂.findIdx? p := by
  intro l₁
  induction l₁ with
  | nil =>
    intro l₂ hl _
    cases l₂ with
    | nil => rfl
    | cons y ys => simp at hl
  | cons x xs ih =>
    intro l₂ hl hp
    cases l₂ with
    | nil => simp at hl
    | cons y ys =>
      have h0 := hp 0
      simp only [List.getElem?_cons_zero, Option.map_some'] at h0
      have h0' : p x = p y := by injection h0
      simp only [List.findIdx?_cons]
      rw [h0']
      cases hy : p y with
      | true => rfl
      | false =>
        rw [if_neg (by decide), if_neg (by decide)]
        rw [List.findIdx?_succ, List.findIdx?_succ]
        rw [ih ys (by simpa using hl) (fun k => by simpa using hp (k + 1))]

theorem findShipIdx_set_cells_eq {ships : List Ship} {j : Nat} {t t' : Ship}
    (hget : ships[j]? = some t) (hcells : t'.cells = t.cells) (row col : Nat) :
    findShipIdx (ships.set j t') row col = findShipIdx ships row col := by
  unfold findShipIdx
  apply findIdx?_congr
  · simp
  · intro k
    rcases Nat.decEq j k with hk | hk
    · rw [List.getElem?_set_ne hk]
    · subst hk
      have hj : j < ships.length := by
        by_contra hge
        rw [List.getElem?_eq_none (by omega)] at hget
        simp at hget
      injection (List.getElem?_eq_getElem hj ▸ hget) with hget
      simp [List.getElem?_set_eq_of_lt _ hj, List.getElem?_eq_getElem hj, ← hget, hcells]

theorem findShipIdx_some {ships : List Ship} {row col i : Nat}
    (h : findShipIdx ships row col = some i) :
    ∃ hi : i < ships.length,
      (ships.get ⟨i, hi⟩).cells.any (fun c => c.row == row && c.col == col) = true := by
  unfold findShipIdx at h
  obtain ⟨hi, hfind⟩ := List.findIdx?_eq_some_iff_findIdx_eq.mp h
  refine ⟨hi, ?_⟩
  have := @List.findIdx_getElem _
    (fun s => s.cells.any fun c => c.row == row && c.col == col) ships (by omega)
  simpa [hfind, List.get_eq_getElem] using this

theorem checkShipSunk_fst (board : Board) (s : Ship) :
    (checkShipSunk board s).1 =
      { s with sunk := s.sunk ||
          s.cells.all fun c => decide (getCell board c.row c.col = CellState.hit) } := by
  obtain ⟨len, cells, sunk, isH, sid⟩ := s
  unfold checkShipSunk
  cases sunk with
  | false =>
    simp only [Bool.false_or]
    cases hall : cells.all fun c => decide (getCell board c.row c.col = CellState.hit) <;>
      simp_all
  | true => simp

theorem checkShipSunk_snd (board : Board) (s : Ship) :
    (checkShipSunk board s).2 = (s.sunk ||
      s.cells.all fun c => decide (getCell board c.row c.col = CellState.hit)) := by
  obtain ⟨len, cells, sunk, isH, sid⟩ := s
  unfold checkShipSunk
  cases sunk <;> simp

theorem resolveAttack_board (board : Board) (ships : List Ship) (row col : Nat) :
    (resolveAttack board ships row col).board = setCell board row col CellState.hit ∨
    (resolveAttack board ships row col).board = setCell board row col CellState.miss := by
  unfold resolveAttack
  split
  · split <;> exact Or.inl rfl
  · exact Or.inr rfl

theorem getCell_resolveAttack_ne {board : Board} {ships : List Ship}
    {row col r c : Nat} (h : row ≠ r ∨ col ≠ c) :
    getCell (resolveAttack board ships row col).board r c = getCell board r c := by
  rcases resolveAttack_board board ships row col with hb | hb <;>
    rw [hb, getCell_setCell_ne _ h]

theorem resolveAttack_ships_length (board : Board) (ships : List Ship)
    (row col : Nat) :
    (resolveAttack board ships row col).ships.length = ships.length := by
  unfold resolveAttack
  split
  · split <;> simp
  · rfl

theorem resolveAttack_ships_cells (board : Board) (ships : List Ship)
    (row col : Nat) (i : Nat) :
    ((resolveAttack board ships row col).ships[i]?).map Ship.cells =
      (ships[i]?).map Ship.cells := by
  unfold resolveAttack
  split
  · split
    case _ j hj =>
      obtain ⟨hjlen, _⟩ := findShipIdx_some hj
      simp only
      rcases Nat.decEq j i with hij | hij
      · rw [List.getElem?_set_ne hij]
      · subst hij
        rw [List.getElem?_set_eq_of_lt _ hjlen, List.getElem?_eq_getElem hjlen]
        simp only [Option.map_some']
        rw [checkShipSunk_fst]
        rfl
    case _ => rfl
  · rfl

theorem resolveAttack_sunkShip_cells {board : Board} {ships : List Ship}
    {row col : Nat} {t : Ship}
    (h : (resolveAttack board ships row col).sunkShip = some t) :
    ∃ i, ∃ hi : i < ships.length,
      t.cells = (ships.get ⟨i, hi⟩).cells ∧
      (ships.get ⟨i, hi⟩).cells.any (fun c => c.row == row && c.col == col) = true := by
  unfold resolveAttack at h
  split at h
  · split at h
    case _ j hj =>
      obtain ⟨hjlen, hany⟩ := findShipIdx_some hj
      simp only at h
      split at h
      · refine ⟨j, hjlen, ?_, hany⟩
        injection h with h
        rw [← h, checkShipSunk_fst]
      · simp at h
    case _ => simp at h
  · simp at h

/-! ### AI move-selection lemmas -/

theorem isValidAiTarget_eq_true {b : Board} {row col : Int}
    (h : isValidAiTarget b row col = true) :
    0 ≤ row ∧ row < (BOARD_SIZE : Int) ∧ 0 ≤ col ∧ col < (BOARD_SIZE : Int) ∧
      getCell b row.toNat col.toNat ≠ CellState.hit ∧
      getCell b row.toNat col.toNat ≠ CellState.miss := by
  unfold isValidAiTarget at h
  split at h
  · simp at h
  · rename_i hbounds
    push_neg at hbounds
    simp only [Bool.and_eq_true, decide_eq_true_eq, ne_eq] at h
    exact ⟨hbounds.1, hbounds.2.1, hbounds.2.2.1, hbounds.2.2.2, h.1, h.2⟩

theorem isValidAiTarget_coord {b : Board} {t : Coord}
    (h : isValidAiTarget b t.row t.col = true) :
    t.row < BOARD_SIZE ∧ t.col < BOARD_SIZE ∧
      getCell b t.row t.col ≠ CellState.hit ∧
      getCell b t.row t.col ≠ CellState.miss := by
  obtain ⟨_, hr, _, hc, hh, hm⟩ := isValidAiTarget_eq_true h
  simp only [Int.toNat_natCast] at hh hm
  exact ⟨by exact_mod_cast hr, by exact_mod_cast hc, hh, hm⟩

theorem isValidAiTarget_of_fresh {b : Board} {r c : Nat}
    (hr : r < BOARD_SIZE) (hc : c < BOARD_SIZE)
    (hh : getCell b r c ≠ CellState.hit) (hm : getCell b r c ≠ CellState.miss) :
    isValidAiTarget b (Int.ofNat r) (Int.ofNat c) = true := by
  have hB : BOARD_SIZE = 10 := rfl
  unfold isValidAiTarget
  rw [if_neg]
  · simp only [Bool.and_eq_true, decide_eq_true_eq, ne_eq, Int.ofNat_eq_natCast,
      Int.toNat_natCast]
    exact ⟨hh, hm⟩
  · push_neg
    simp only [Int.ofNat_eq_natCast]
    have hBi : ((BOARD_SIZE : Nat) : Int) = 10 := rfl
    refine ⟨by omega, by omega, by omega, by omega⟩

theorem mem_huntAvailable {b : Board} {t : Coord} (h : t ∈ huntAvailable b) :
    isValidAiTarget b t.row t.col = true := by
  unfold huntAvailable at h
  rw [List.mem_flatMap] at h
  obtain ⟨r, _, hmem⟩ := h
  rw [List.mem_filterMap] at hmem
  obtain ⟨c, _, hsome⟩ := hmem
  split at hsome
  · rename_i hvalid
    injection hsome with hsome
    subst hsome
    simpa [Int.ofNat_eq_natCast] using hvalid
  · simp at hsome

theorem huntAvailable_mem_of_fresh {b : Board} {r c : Nat}
    (hr : r < BOARD_SIZE) (hc : c < BOARD_SIZE)
    (hh : getCell b r c ≠ CellState.hit) (hm : getCell b r c ≠ CellState.miss) :
    (⟨r, c⟩ : Coord) ∈ huntAvailable b := by
  unfold huntAvailable
  rw [List.mem_flatMap]
  refine ⟨r, List.mem_range.mpr hr, ?_⟩
  rw [List.mem_filterMap]
  refine ⟨c, List.mem_range.mpr hc, ?_⟩
  rw [if_pos (isValidAiTarget_of_fresh hr hc hh hm)]

theorem drainQueue_valid {b : Board} :
    ∀ {q : List Coord} {t : Coord} {rest : List Coord},
      drainQueue b q = (some t, rest) →
      isValidAiTarget b t.row t.col = true := by
  intro q
  induction q with
  | nil => intro t rest h; simp [drainQueue] at h
  | cons next qrest ih =>
    intro t rest h
    unfold drainQueue at h
    split at h
    · rename_i hvalid
      injection h with h1 _
      injection h1 with h1
      subst h1
      exact hvalid
    · exact ih h

theorem getDirectionalCandidates_valid {b : Board} {hits : List Coord} {t : Coord}
    (h : t ∈ getDirectionalCandidates b hits) :
    isValidAiTarget b t.row t.col = true := by
  unfold getDirectionalCandidates at h
  rw [List.mem_map] at h
  obtain ⟨d, hd, ht⟩ := h
  rw [List.mem_filter] at hd
  have hvalid := hd.2
  obtain ⟨hr0, _, hc0, _, _, _⟩ := isValidAiTarget_eq_true hvalid
  subst ht
  simpa [Int.toNat_of_nonneg hr0, Int.toNat_of_nonneg hc0] using hvalid

theorem getD_mem {α : Type} {l : List α} {i : Nat} (d : α) (h : i < l.length) :
    l.getD i d ∈ l := by
  rw [List.getD_eq_getElem l d h]
  exact List.getElem_mem h

theorem chooseAiMoveHunt_some_valid {b : Board} {k : Nat} {m : AiMemory}
    {t : Coord} (h : (chooseAiMoveHunt b k m).1 = some t) :
    isValidAiTarget b t.row t.col = true := by
  unfold chooseAiMoveHunt at h
  split at h
  · simp at h
  · rename_i hne
    injection h with h
    subst h
    apply mem_huntAvailable
    apply getD_mem
    have hne' : huntAvailable b ≠ [] := by
      intro hcon
      exact hne (by rw [hcon]; rfl)
    exact Nat.mod_lt _ (List.length_pos.mpr hne')

theorem chooseAiMoveDrain_some_valid {b : Board} {k : Nat} {m : AiMemory}
    {t : Coord} (h : (chooseAiMoveDrain b k m).1 = some t) :
    isValidAiTarget b t.row t.col = true := by
  unfold chooseAiMoveDrain at h
  split at h
  case _ c rest hdrain =>
    injection h with h
    subst h
    exact drainQueue_valid hdrain
  case _ =>
    exact chooseAiMoveHunt_some_valid h

theorem chooseAiMove_some_valid {b : Board} {mem : AiMemory} {k : Nat} {t : Coord}
    (h : (chooseAiMove b mem k).1 = some t) :
    isValidAiTarget b t.row t.col = true := by
  unfold chooseAiMove at h
  split at h
  · split at h
    · split at h
      case _ c tail hdir =>
        injection h with h
        subst h
        exact getDirectionalCandidates_valid (by rw [hdir]; exact List.mem_cons_self _ _)
      case _ =>
        exact chooseAiMoveDrain_some_valid h
    · exact chooseAiMoveDrain_some_valid h
  · exact chooseAiMoveHunt_some_valid h

theorem chooseAiMoveHunt_none_empty {b : Board} {k : Nat} {m : AiMemory}
    (h : (chooseAiMoveHunt b k m).1 = none) :
    huntAvailable b = [] := by
  unfold chooseAiMoveHunt at h
  split at h
  · rename_i hempty
    exact List.isEmpty_iff.mp hempty
  · simp at h

theorem chooseAiMove_none_empty {b : Board} {mem : AiMemory} {k : Nat}
    (h : (chooseAiMove b mem k).1 = none) :
    huntAvailable b = [] := by
  unfold chooseAiMove at h
  have hdrain : ∀ m' : AiMemory, (chooseAiMoveDrain b k m').1 = none →
      huntAvailable b = [] := by
    intro m' hm
    unfold chooseAiMoveDrain at hm
    split at hm
    · simp at hm
    · exact chooseAiMoveHunt_none_empty hm
  split at h
  · split at h
    · split at h
      · simp at h
      · exact hdrain _ h
    · exact hdrain _ h
  · exact chooseAiMoveHunt_none_empty h

/-! ### Marked-cell preservation along game steps -/

theorem aiTurnSchedule_boards (sys : SystemState) :
    (aiTurnSchedule sys).game.playerBoard = sys.game.playerBoard ∧
    (aiTurnSchedule sys).game.enemyBoard = sys.game.enemyBoard := by
  unfold aiTurnSchedule
  split <;> simp

theorem handleEnemyBoardClick_playerBoard (sys : SystemState) (row col : Nat) :
    (handleEnemyBoardClick sys row col).game.playerBoard = sys.game.playerBoard := by
  unfold handleEnemyBoardClick
  split
  · rfl
  split
  · rfl
  split
  · rfl
  split
  · rfl
  · dsimp only
    split
    · rfl
    · rw [(aiTurnSchedule_boards _).1]

theorem handleEnemyBoardClick_enemyBoard_marked {sys : SystemState}
    (row col : Nat) {r c : Nat} {v : CellState}
    (hv : v = CellState.hit ∨ v = CellState.miss)
    (hm : getCell sys.game.enemyBoard r c = v) :
    getCell (handleEnemyBoardClick sys row col).game.enemyBoard r c = v := by
  unfold handleEnemyBoardClick
  split
  · exact hm
  split
  · exact hm
  split
  · exact hm
  split
  · exact hm
  · rename_i hguard
    have hne : row ≠ r ∨ col ≠ c := by
      by_contra hcon
      push_neg at hcon
      obtain ⟨h1, h2⟩ := hcon
      subst h1 h2
      rcases hv with hv | hv <;> rw [hm, hv] at hguard <;> simp at hguard
    dsimp only
    split
    · simpa using (getCell_resolveAttack_ne hne).trans hm
    · rw [(aiTurnSchedule_boards _).2]
      simpa using (getCell_resolveAttack_ne hne).trans hm

theorem aiTurnFire_enemyBoard (k : Nat) (sys : SystemState) :
    (aiTurnFire k sys).game.enemyBoard = sys.game.enemyBoard := by
  unfold aiTurnFire
  split
  · rfl
  · dsimp only
    split
    · rfl
    split
    · rfl
    · try dsimp only
      split <;> rfl

theorem aiTurnFire_playerBoard_marked {sys : SystemState} (k : Nat)
    {r c : Nat} {v : CellState}
    (hv : v = CellState.hit ∨ v = CellState.miss)
    (hm : getCell sys.game.playerBoard r c = v) :
    getCell (aiTurnFire k sys).game.playerBoard r c = v := by
  unfold aiTurnFire
  split
  · exact hm
  · dsimp only
    split
    · exact hm
    split
    case _ mem' hchoose => exact hm
    case _ target mem' hchoose =>
      have hsome : (chooseAiMove sys.game.playerBoard sys.game.aiMemory k).1
          = some target := by rw [hchoose]
      obtain ⟨_, _, hh, hmiss⟩ := isValidAiTarget_coord (chooseAiMove_some_valid hsome)
      have hne : target.row ≠ r ∨ target.col ≠ c := by
        by_contra hcon
        push_neg at hcon
        obtain ⟨h1, h2⟩ := hcon
        rw [h1, h2] at hh hmiss
        rcases hv with hv | hv
        · exact hh (hm.trans hv)
        · exact hmiss (hm.trans hv)
      try dsimp only
      split <;> simpa using (getCell_resolveAttack_ne hne).trans hm

theorem gameStep_marked {s s' : SystemState} (hstep : GameStep s s')
    {r c : Nat} {v : CellState} (hv : v = CellState.hit ∨ v = CellState.miss) :
    (getCell s.game.playerBoard r c = v →
      getCell s'.game.playerBoard r c = v) ∧
    (getCell s.game.enemyBoard r c = v →
      getCell s'.game.enemyBoard r c = v) := by
  cases hstep with
  | click row col =>
    exact ⟨fun hm => (handleEnemyBoardClick_playerBoard s row col).symm ▸ hm,
      fun hm => handleEnemyBoardClick_enemyBoard_marked row col hv hm⟩
  | fire k =>
    exact ⟨fun hm => aiTurnFire_playerBoard_marked k hv hm,
      fun hm => (aiTurnFire_enemyBoard k s).symm ▸ hm⟩

/-! ### Sunk-fires-once: invariant induction over attack sequences -/

/-- The `sunkShip` return of one call names the tracked ship exactly when
its cell list matches (ships never share cells, so cells identify a ship). -/
def namesCells (cells : List Coord) (r : Outcome × Option Ship) : Bool :=
  decide (r.2.map Ship.cells = some cells)

theorem coord_ne_of_not_mem {m c : Coord} (h : m ≠ c) :
    m.row ≠ c.row ∨ m.col ≠ c.col := by
  by_contra hcon
  push_neg at hcon
  exact h (by cases m; cases c; simp_all)

theorem coord_eq_of_parts {a b : Coord} (h1 : a.row = b.row)
    (h2 : a.col = b.col) : a = b := by
  cases a
  cases b
  simp_all

theorem findShipIdx_eq_some_mem {ships : List Ship} {j : Nat} {s : Ship}
    (hget : ships[j]? = some s) {m : Coord}
    (hfind : findShipIdx ships m.row m.col = some j) : m ∈ s.cells := by
  obtain ⟨hjlen, hany⟩ := findShipIdx_some hfind
  rw [List.getElem?_eq_getElem hjlen] at hget
  injection hget with hget
  rw [List.any_eq_true] at hany
  obtain ⟨c, hc, hcm⟩ := hany
  simp only [Bool.and_eq_true, beq_iff_eq] at hcm
  have : c = m := coord_eq_of_parts hcm.1 hcm.2
  subst this
  rw [List.get_eq_getElem, hget] at hc
  exact hc

theorem get?_eq_of_getElem? {ships : List Ship} {j : Nat} {s : Ship}
    (hget : ships[j]? = some s) :
    ∃ hj : j < ships.length, ships.get ⟨j, hj⟩ = s := by
  have hj : j < ships.length := by
    by_contra hge
    rw [List.getElem?_eq_none (by omega)] at hget
    cases hget
  refine ⟨hj, ?_⟩
  rw [List.getElem?_eq_getElem hj] at hget
  injection hget with hget

theorem resolveAttack_miss_eq {board : Board} {ships : List Ship} {row col : Nat}
    (h : getCell board row col ≠ CellState.ship) :
    resolveAttack board ships row col =
      ⟨setCell board row col CellState.miss, ships, Outcome.miss, none⟩ := by
  unfold resolveAttack
  rw [if_neg h]

theorem resolveAttack_hit_found_eq {board : Board} {ships : List Ship}
    {row col j : Nat} {s : Ship}
    (hship : getCell board row col = CellState.ship)
    (hfind : findShipIdx ships row col = some j)
    (hget : ships[j]? = some s) :
    resolveAttack board ships row col =
      ⟨setCell board row col CellState.hit,
       ships.set j (checkShipSunk (setCell board row col CellState.hit) s).1,
       Outcome.hit,
       if (checkShipSunk (setCell board row col CellState.hit) s).2
         then some (checkShipSunk (setCell board row col CellState.hit) s).1
         else none⟩ := by
  obtain ⟨hj, hgets⟩ := get?_eq_of_getElem? hget
  unfold resolveAttack
  rw [if_pos hship]
  split
  case _ i hi =>
    rw [hfind] at hi
    injection hi with hi
    subst hi
    simp only [List.get_eq_getElem] at hgets ⊢
    rw [hgets]
  case _ hnone =>
    rw [hfind] at hnone
    cases hnone

theorem resolveAttack_ships_shape (board : Board) (ships : List Ship)
    (row col : Nat) :
    (resolveAttack board ships row col).ships = ships ∨
    ∃ i tI, findShipIdx ships row col = some i ∧ ships[i]? = some tI ∧
      (resolveAttack board ships row col).ships =
        ships.set i ((checkShipSunk (setCell board row col CellState.hit) tI).1) := by
  unfold resolveAttack
  split
  · split
    case _ i hi =>
      obtain ⟨hilen, _⟩ := findShipIdx_some hi
      right
      refine ⟨i, ships.get ⟨i, hilen⟩, hi, ?_, rfl⟩
      rw [List.getElem?_eq_getElem hilen]
      rfl
    case _ => left; rfl
  · left; rfl

theorem runAttacks_cons_res (board : Board) (ships : List Ship) (m : Coord)
    (ms : List Coord) :
    (runAttacks board ships (m :: ms)).2.2 =
      ((resolveAttack board ships m.row m.col).result,
       (resolveAttack board ships m.row m.col).sunkShip) ::
      (runAttacks (resolveAttack board ships m.row m.col).board
        (resolveAttack board ships m.row m.col).ships ms).2.2 := rfl

theorem runAttacks_cons_ships (board : Board) (ships : List Ship) (m : Coord)
    (ms : List Coord) :
    (runAttacks board ships (m :: ms)).2.1 =
      (runAttacks (resolveAttack board ships m.row m.col).board
        (resolveAttack board ships m.row m.col).ships ms).2.1 := rfl

theorem runAttacks_invariant :
    ∀ (moves : List Coord) (board : Board) (ships : List Ship) (j : Nat) (s : Ship),
      ships[j]? = some s →
      s.cells ≠ [] →
      WF board →
      (∀ c ∈ s.cells, c.row < BOARD_SIZE ∧ c.col < BOARD_SIZE) →
      (∀ c ∈ s.cells, findShipIdx ships c.row c.col = some j) →
      (∀ i t, ships[i]? = some t → i ≠ j → ∀ c ∈ t.cells, c ∉ s.cells) →
      (∀ c ∈ s.cells, getCell board c.row c.col = CellState.ship ∨
        getCell board c.row c.col = CellState.hit) →
      (s.sunk = true ↔ ∀ c ∈ s.cells, getCell board c.row c.col = CellState.hit) →
      (∀ c ∈ s.cells, getCell board c.row c.col = CellState.hit → c ∉ moves) →
      moves.Nodup →
      ((runAttacks board ships moves).2.2.countP (namesCells s.cells) =
        if s.sunk then 0
        else if ∀ c ∈ s.cells, getCell board c.row c.col = CellState.hit ∨ c ∈ moves
          then 1 else 0) ∧
      (runAttacks board ships moves).2.1[j]? = some { s with
        sunk := s.sunk ||
          decide (∀ c ∈ s.cells,
            getCell board c.row c.col = CellState.hit ∨ c ∈ moves) } := by
  intro moves
  induction moves with
  | nil =>
    intro board ships j s hget hne hWF hin hfind hdisj hstate hsunk hfresh hnodup
    have hcond : (∀ c ∈ s.cells,
        getCell board c.row c.col = CellState.hit ∨ c ∈ ([] : List Coord)) ↔
        s.sunk = true := by
      simp only [List.not_mem_nil, or_false]
      exact hsunk.symm
    refine ⟨?_, ?_⟩
    · simp only [runAttacks, List.countP_nil]
      rcases hs : s.sunk with _ | _
      · rw [if_neg (by simp),
          if_neg (fun hcon => absurd (hcond.mp hcon) (by simp [hs]))]
      · rw [if_pos rfl]
    · simp only [runAttacks]
      rw [hget]
      have hdec : decide (∀ c ∈ s.cells,
          getCell board c.row c.col = CellState.hit ∨ c ∈ ([] : List Coord))
          = s.sunk := by
        rcases hs2 : s.sunk with _ | _
        · exact decide_eq_false (fun hcon => absurd (hcond.mp hcon) (by simp [hs2]))
        · exact decide_eq_true (hcond.mpr hs2)
      rw [hdec, Bool.or_self]
  | cons m ms ih =>
    intro board ships j s hget hne hWF hin hfind hdisj hstate hsunk hfresh hnodup
    have hnodup2 : ms.Nodup := hnodup.of_cons
    have hmnotin : m ∉ ms := (List.nodup_cons.mp hnodup).1
    by_cases hmem : m ∈ s.cells
    · -- Case A: the attacked cell belongs to the tracked ship.
      have hm_ship : getCell board m.row m.col = CellState.ship := by
        rcases hstate m hmem with h | h
        · exact h
        · exact absurd (List.mem_cons_self m ms) (hfresh m hmem h)
      have hs_false : s.sunk = false := by
        rcases hs : s.sunk with _ | _
        · rfl
        · have hhit := hsunk.mp hs m hmem
          rw [hhit] at hm_ship
          cases hm_ship
      obtain ⟨hj, _⟩ := get?_eq_of_getElem? hget
      have hres := resolveAttack_hit_found_eq hm_ship (hfind m hmem) hget
      set board' := setCell board m.row m.col CellState.hit with hboard'
      set checked := checkShipSunk board' s with hchecked
      have hres_board : (resolveAttack board ships m.row m.col).board = board' := by
        rw [hres]
      have hres_ships : (resolveAttack board ships m.row m.col).ships =
          ships.set j checked.1 := by rw [hres]
      have hres_result : (resolveAttack board ships m.row m.col).result =
          Outcome.hit := by rw [hres]
      have hres_sunk : (resolveAttack board ships m.row m.col).sunkShip =
          if checked.2 then some checked.1 else none := by rw [hres]
      have hcheck1 : checked.1 = { s with sunk := s.cells.all (fun c => decide (getCell board' c.row c.col = CellState.hit)) } := by
        rw [hchecked, checkShipSunk_fst, hs_false, Bool.false_or]
      have hcheck2 : checked.2 = (s.cells.all (fun c => decide (getCell board' c.row c.col = CellState.hit))) := by
        rw [hchecked, checkShipSunk_snd, hs_false, Bool.false_or]
      have hcellseq : checked.1.cells = s.cells := by rw [hcheck1]
      have hsunk1 : checked.1.sunk = (s.cells.all (fun c => decide (getCell board' c.row c.col = CellState.hit))) := by
        rw [hcheck1]
      have htrans : ∀ c ∈ s.cells, c ≠ m →
          getCell board' c.row c.col = getCell board c.row c.col := by
        intro c hc hcm
        rw [hboard']
        exact getCell_setCell_ne _ (coord_ne_of_not_mem (fun he => hcm he.symm))
      have hm_hit : getCell board' m.row m.col = CellState.hit := by
        rw [hboard']
        exact getCell_setCell_eq hWF (hin m hmem).1 (hin m hmem).2 _
      have hget2 : (ships.set j checked.1)[j]? = some checked.1 :=
        List.getElem?_set_eq_of_lt _ hj
      have hWF2 : WF board' := by rw [hboard']; exact WF_setCell hWF _ _ _
      have hfind2 : ∀ c ∈ checked.1.cells,
          findShipIdx (ships.set j checked.1) c.row c.col = some j := by
        intro c hc
        rw [findShipIdx_set_cells_eq hget hcellseq]
        exact hfind c (hcellseq ▸ hc)
      have hdisj2 : ∀ i t, (ships.set j checked.1)[i]? = some t → i ≠ j →
          ∀ c ∈ t.cells, c ∉ checked.1.cells := by
        intro i t hgt hij c hc
        rw [hcellseq]
        rw [List.getElem?_set_ne (fun he => hij he.symm)] at hgt
        exact hdisj i t hgt hij c hc
      have hstate2 : ∀ c ∈ checked.1.cells,
          getCell board' c.row c.col = CellState.ship ∨
          getCell board' c.row c.col = CellState.hit := by
        intro c hc
        rw [hcellseq] at hc
        by_cases hcm : c = m
        · subst hcm; right; exact hm_hit
        · rw [htrans c hc hcm]; exact hstate c hc
      have hsunk2 : checked.1.sunk = true ↔
          ∀ c ∈ checked.1.cells, getCell board' c.row c.col = CellState.hit := by
        rw [hsunk1, hcellseq]
        simp [List.all_eq_true]
      have hfresh2 : ∀ c ∈ checked.1.cells,
          getCell board' c.row c.col = CellState.hit → c ∉ ms := by
        intro c hc hhit
        rw [hcellseq] at hc
        by_cases hcm : c = m
        · subst hcm; exact hmnotin
        · rw [htrans c hc hcm] at hhit
          intro hcms
          exact hfresh c hc hhit (List.mem_cons_of_mem m hcms)
      obtain ⟨ihcount, ihships⟩ := ih board' (ships.set j checked.1) j checked.1
        hget2 (by rw [hcellseq]; exact hne) hWF2
        (by rw [hcellseq]; exact hin) hfind2 hdisj2 hstate2 hsunk2 hfresh2 hnodup2
      rw [hcellseq] at ihcount ihships
      rw [hsunk1] at ihcount ihships
      have hcond_iff :
          (∀ c ∈ s.cells,
            getCell board c.row c.col = CellState.hit ∨ c ∈ m :: ms) ↔
          (∀ c ∈ s.cells,
            getCell board' c.row c.col = CellState.hit ∨ c ∈ ms) := by
        constructor
        · intro h c hc
          by_cases hcm : c = m
          · subst hcm; left; exact hm_hit
          · rcases h c hc with hh | hms
            · left; rw [htrans c hc hcm]; exact hh
            · rcases List.mem_cons.mp hms with he | hms2
              · exact absurd he hcm
              · right; exact hms2
        · intro h c hc
          by_cases hcm : c = m
          · subst hcm; right; exact List.mem_cons_self _ _
          · rcases h c hc with hh | hms
            · left; rw [← htrans c hc hcm]; exact hh
            · right; exact List.mem_cons_of_mem m hms
      rcases hall : s.cells.all
          (fun c => decide (getCell board' c.row c.col = CellState.hit)) with _ | _
      · -- A2: the hit does not complete the ship
        rw [hall] at ihcount ihships
        rw [if_neg (by decide)] at ihcount
        rw [Bool.false_or] at ihships
        refine ⟨?_, ?_⟩
        · rw [runAttacks_cons_res, hres_result, hres_sunk, hres_board, hres_ships,
            List.countP_cons, hcheck2, hall]
          have hnames : namesCells s.cells
              (Outcome.hit, if false = true then some checked.1 else none) = false := by
            unfold namesCells
            simp
          rw [hnames]
          simp only [Bool.false_eq_true, if_false, Nat.add_zero]
          rw [ihcount, hs_false]
          simp only [Bool.false_eq_true, if_false]
          exact if_congr hcond_iff.symm rfl rfl
        · rw [runAttacks_cons_ships, hres_board, hres_ships, ihships, hcheck1]
          rw [hs_false, Bool.false_or]
          have hdeceq : decide (∀ c ∈ s.cells,
                getCell board c.row c.col = CellState.hit ∨ c ∈ m :: ms) =
              decide (∀ c ∈ s.cells,
                getCell board' c.row c.col = CellState.hit ∨ c ∈ ms) :=
            decide_eq_decide.mpr hcond_iff
          rw [hdeceq]
      · -- A1: this hit sinks the ship
        rw [hall] at ihcount ihships
        rw [if_pos rfl] at ihcount
        rw [Bool.true_or] at ihships
        have hallhit : ∀ c ∈ s.cells,
            getCell board' c.row c.col = CellState.hit := by
          rw [List.all_eq_true] at hall
          intro c hc
          exact of_decide_eq_true (hall c hc)
        have hcondFull : ∀ c ∈ s.cells,
            getCell board c.row c.col = CellState.hit ∨ c ∈ m :: ms :=
          hcond_iff.mpr (fun c hc => Or.inl (hallhit c hc))
        refine ⟨?_, ?_⟩
        · rw [runAttacks_cons_res, hres_result, hres_sunk, hres_board, hres_ships,
            List.countP_cons, hcheck2, hall]
          have hnames : namesCells s.cells
              (Outcome.hit, if true = true then some checked.1 else none) = true := by
            unfold namesCells
            simp [hcellseq]
          rw [hnames, ihcount]
          rw [hs_false]
          simp only [Bool.false_eq_true, if_false]
          rw [if_pos hcondFull]
          simp
        · rw [runAttacks_cons_ships, hres_board, hres_ships, ihships, hcheck1]
          rw [hs_false, Bool.false_or, hall, decide_eq_true hcondFull]
    · -- Case B: the attacked cell does not belong to the tracked ship.
      have htrans : ∀ c ∈ s.cells,
          getCell (resolveAttack board ships m.row m.col).board c.row c.col
            = getCell board c.row c.col := by
        intro c hc
        refine getCell_resolveAttack_ne (coord_ne_of_not_mem ?_)
        intro he
        exact hmem (he ▸ hc : m ∈ s.cells)
      have hWF2 : WF (resolveAttack board ships m.row m.col).board := by
        rcases resolveAttack_board board ships m.row m.col with hb | hb <;>
          rw [hb] <;> exact WF_setCell hWF _ _ _
      have hfind_ne : findShipIdx ships m.row m.col ≠ some j := by
        intro hcon
        exact hmem (findShipIdx_eq_some_mem hget hcon)
      have hships3 : (resolveAttack board ships m.row m.col).ships[j]? = some s ∧
          (∀ c ∈ s.cells, findShipIdx (resolveAttack board ships m.row m.col).ships
            c.row c.col = some j) ∧
          (∀ i2 t, (resolveAttack board ships m.row m.col).ships[i2]? = some t →
            i2 ≠ j → ∀ c ∈ t.cells, c ∉ s.cells) := by
        rcases resolveAttack_ships_shape board ships m.row m.col with
          hsh | ⟨i, tI, hfi, hgetI, hsh⟩
        · rw [hsh]
          exact ⟨hget, fun c hc => hfind c hc, hdisj⟩
        · have hij : i ≠ j := fun he => hfind_ne (he ▸ hfi)
          have hcellsI : ((checkShipSunk (setCell board m.row m.col CellState.hit)
              tI).1).cells = tI.cells := by rw [checkShipSunk_fst]
          obtain ⟨hilen, _⟩ := get?_eq_of_getElem? hgetI
          rw [hsh]
          refine ⟨?_, ?_, ?_⟩
          · rw [List.getElem?_set_ne hij]; exact hget
          · intro c hc
            rw [findShipIdx_set_cells_eq hgetI hcellsI]
            exact hfind c hc
          · intro i2 t hgt hij2 c hc
            rcases Nat.decEq i i2 with hii | hii
            · rw [List.getElem?_set_ne hii] at hgt
              exact hdisj i2 t hgt hij2 c hc
            · subst hii
              rw [List.getElem?_set_eq_of_lt _ hilen] at hgt
              injection hgt with hgt
              rw [← hgt, hcellsI] at hc
              exact hdisj i tI hgetI hij c hc
      obtain ⟨hget2, hfind2, hdisj2⟩ := hships3
      have hcontrib : namesCells s.cells
          ((resolveAttack board ships m.row m.col).result,
           (resolveAttack board ships m.row m.col).sunkShip) = false := by
        unfold namesCells
        rcases hss : (resolveAttack board ships m.row m.col).sunkShip with _ | t
        · simp
        · simp only [Option.map_some', decide_eq_false_iff_not]
          intro hcon
          injection hcon with hcon
          obtain ⟨i2, hi2, htcells, hany⟩ := resolveAttack_sunkShip_cells hss
          have hmI : m ∈ (ships.get ⟨i2, hi2⟩).cells := by
            rw [List.any_eq_true] at hany
            obtain ⟨c, hc, hcm⟩ := hany
            simp only [Bool.and_eq_true, beq_iff_eq] at hcm
            have hceq : c = m := coord_eq_of_parts hcm.1 hcm.2
            subst hceq
            exact hc
          have hgetI2 : ships[i2]? = some (ships.get ⟨i2, hi2⟩) := by
            rw [List.getElem?_eq_getElem hi2]
            rfl
          have hij : i2 ≠ j := by
            intro he
            subst he
            obtain ⟨hj, hjeq⟩ := get?_eq_of_getElem? hget
            rw [(rfl : ships.get ⟨i2, hi2⟩ = ships.get ⟨i2, hj⟩), hjeq] at hmI
            exact hmem hmI
          obtain ⟨c0, hc0⟩ := List.exists_mem_of_ne_nil _ hne
          have hc02 : c0 ∈ (ships.get ⟨i2, hi2⟩).cells := by
            rw [← htcells.symm.trans hcon] at hc0
            exact hc0
          exact hdisj i2 _ hgetI2 hij c0 hc02 hc0
      have hstate2 : ∀ c ∈ s.cells,
          getCell (resolveAttack board ships m.row m.col).board c.row c.col
            = CellState.ship ∨
          getCell (resolveAttack board ships m.row m.col).board c.row c.col
            = CellState.hit := by
        intro c hc
        rw [htrans c hc]
        exact hstate c hc
      have hsunk2 : s.sunk = true ↔ ∀ c ∈ s.cells,
          getCell (resolveAttack board ships m.row m.col).board c.row c.col
            = CellState.hit := by
        rw [hsunk]
        constructor
        · intro h c hc; rw [htrans c hc]; exact h c hc
        · intro h c hc; rw [← htrans c hc]; exact h c hc
      have hfresh2 : ∀ c ∈ s.cells,
          getCell (resolveAttack board ships m.row m.col).board c.row c.col
            = CellState.hit → c ∉ ms := by
        intro c hc hhit
        rw [htrans c hc] at hhit
        intro hcms
        exact hfresh c hc hhit (List.mem_cons_of_mem m hcms)
      obtain ⟨ihcount, ihships⟩ := ih (resolveAttack board ships m.row m.col).board
        (resolveAttack board ships m.row m.col).ships j s hget2 hne hWF2 hin
        hfind2 hdisj2 hstate2 hsunk2 hfresh2 hnodup2
      have hcond_iff :
          (∀ c ∈ s.cells,
            getCell board c.row c.col = CellState.hit ∨ c ∈ m :: ms) ↔
          (∀ c ∈ s.cells,
            getCell (resolveAttack board ships m.row m.col).board c.row c.col
              = CellState.hit ∨ c ∈ ms) := by
        constructor
        · intro h c hc
          rcases h c hc with hh | hms
          · left; rw [htrans c hc]; exact hh
          · rcases List.mem_cons.mp hms with he | hms2
            · exact absurd (he ▸ hc : m ∈ s.cells) hmem
            · right; exact hms2
        · intro h c hc
          rcases h c hc with hh | hms
          · left; rw [← htrans c hc]; exact hh
          · right; exact List.mem_cons_of_mem m hms
      refine ⟨?_, ?_⟩
      · rw [runAttacks_cons_res, List.countP_cons, hcontrib]
        simp only [Bool.false_eq_true, if_false, Nat.add_zero]
        rw [ihcount]
        exact if_congr Iff.rfl rfl (if_congr hcond_iff.symm rfl rfl)
      · rw [runAttacks_cons_ships, ihships,
          decide_eq_decide.mpr hcond_iff]

/-! ### Claim theorems -/

/-- A board whose (0,1) cell has already been resolved as a Hit. -/
def c1Board : Board := setCell (createEmptyBoard BOARD_SIZE) 0 1 CellState.hit

/-- An in-play game state whose enemy board is `c1Board`. -/
def c1Sys : SystemState :=
  ⟨{ createGameState with
      enemyBoard := c1Board
      isGameStarted := true
      phase := Phase.playing
      currentTurn := Turn.player }, 0⟩

/-- C1, counterexample: `resolveAttack` called on an already-Hit cell does
not return an `AlreadyAttacked` outcome and does not leave the grid
unchanged — it flips the Hit cell to Miss and returns a plain miss. -/
theorem claim1_counterexample :
    getCell c1Board 0 1 = CellState.hit ∧
    (resolveAttack c1Board [] 0 1).board ≠ c1Board ∧
    (resolveAttack c1Board [] 0 1).result = Outcome.miss ∧
    getCell (resolveAttack c1Board [] 0 1).board 0 1 = CellState.miss := by
  decide

/-- C1, amended: `resolveAttack` itself has no already-attacked guard —
on a Hit or Miss cell it takes the miss branch and (re)marks the cell
Miss.  The guard lives only in the callers: `handleEnemyBoardClick`
returns with no mutation when the target cell is already Hit or Miss,
and `chooseAiMove` never selects a Hit or Miss cell. -/
theorem claim1_caller_side_guard :
    (∀ (board : Board) (ships : List Ship) (r c : Nat),
      getCell board r c = CellState.hit ∨ getCell board r c = CellState.miss →
      resolveAttack board ships r c =
        ⟨setCell board r c CellState.miss, ships, Outcome.miss, none⟩) ∧
    (∀ (sys : SystemState) (r c : Nat),
      getCell sys.game.enemyBoard r c = CellState.hit ∨
        getCell sys.game.enemyBoard r c = CellState.miss →
      handleEnemyBoardClick sys r c = sys) ∧
    (∀ (board : Board) (mem : AiMemory) (k : Nat) (t : Coord),
      (chooseAiMove board mem k).1 = some t →
      getCell board t.row t.col ≠ CellState.hit ∧
      getCell board t.row t.col ≠ CellState.miss) := by
  refine ⟨?_, ?_, ?_⟩
  · intro board ships r c h
    apply resolveAttack_miss_eq
    rcases h with h | h <;> rw [h] <;> intro hcon <;> cases hcon
  · intro sys r c h
    unfold handleEnemyBoardClick
    split
    · rfl
    split
    · rfl
    split
    · rfl
    · rfl
  · intro board mem k t ht
    obtain ⟨_, _, hh, hm⟩ := isValidAiTarget_coord (chooseAiMove_some_valid ht)
    exact ⟨hh, hm⟩

/-- Witness for C1: the three guards at concrete inputs. -/
theorem claim1_witness :
    resolveAttack c1Board [] 0 1 =
      ⟨setCell c1Board 0 1 CellState.miss, [], Outcome.miss, none⟩ ∧
    handleEnemyBoardClick c1Sys 0 1 = c1Sys ∧
    (getCell (createEmptyBoard BOARD_SIZE) 0 0 ≠ CellState.hit ∧
     getCell (createEmptyBoard BOARD_SIZE) 0 0 ≠ CellState.miss) :=
  ⟨claim1_caller_side_guard.1 c1Board [] 0 1 (Or.inl (by decide)),
   claim1_caller_side_guard.2.1 c1Sys 0 1 (Or.inl (by decide)),
   claim1_caller_side_guard.2.2 (createEmptyBoard BOARD_SIZE) resetAiTargeting 0
     ⟨0, 0⟩ (by decide)⟩

/-- C2: `canPlaceShip(grid, 3, -1, 5, vertical)` does not return `false`;
the missing lower-bound check lets `board[-1]` evaluate to `undefined`
and the subsequent `[c]` access throw a TypeError (modelled as `none`).
The repo's own bug log (Bug 5) records this fix as applied, but the
check is absent from the code. -/
theorem claim2_negative_row_crashes :
    canPlaceShip (createEmptyBoard BOARD_SIZE) 3 (-1) 5 false = none := by
  decide

/-- A random stream on which the length-5 Carrier can never be placed:
every draw proposes a horizontal placement at column 6, which runs off
the right edge. -/
def constDrawCol6 : Nat → Bool × Fin 10 × Fin 10 := fun _ => (true, 0, 6)

/-- C3: `placeAllShipsRandomly` has no outer full-board retry and no
hard failure: on `constDrawCol6` the Carrier exhausts its 200 attempts
and is silently skipped (only a `console.error`), and the function
returns a 1-ship fleet instead of the 5-ship catalog.  The repo's own
bug log (Bug 8) records an outer-retry fix as applied, but it is absent
from the code. -/
theorem claim3_silent_partial_fleet :
    SHIP_DEFS.length = 5 ∧
    (placeAllShipsRandomly (createEmptyBoard BOARD_SIZE) constDrawCol6).2.length
      = 1 := by
  decide

/-- C5: `checkAllSunk` is true iff the fleet is non-empty and every
ship's sunk flag is set; in particular it is false for the empty fleet. -/
theorem claim5_fleet_destroyed_iff :
    ∀ ships : List Ship, checkAllSunk ships = true ↔
      ships ≠ [] ∧ ∀ s ∈ ships, s.sunk = true := by
  intro ships
  unfold checkAllSunk
  rw [Bool.and_eq_true, List.all_eq_true]
  constructor
  · intro h
    obtain ⟨h1, h2⟩ := h
    rw [decide_eq_true_eq] at h1
    exact ⟨List.ne_nil_of_length_pos h1, fun s hs => h2 s hs⟩
  · intro h
    obtain ⟨h1, h2⟩ := h
    exact ⟨decide_eq_true (List.length_pos.mpr h1), fun s hs => h2 s hs⟩

/-- The board holding only the length-2 ship at (0,0)-(0,1). -/
def c4Board : Board := (placeShip (createEmptyBoard BOARD_SIZE) 2 0 0 true).1

/-- The length-2 ship at (0,0)-(0,1). -/
def c4Ship : Ship := (placeShip (createEmptyBoard BOARD_SIZE) 2 0 0 true).2

/-- An attack sequence that targets (0,0) twice before finishing the ship. -/
def c4Moves : List Coord := [⟨0, 0⟩, ⟨0, 0⟩, ⟨0, 1⟩]

/-- C4, counterexample: over the raw code, "every cell eventually
attacked ⇒ sunkShip returned exactly once" fails when a coordinate is
attacked twice: re-attacking the Hit cell (0,0) flips it to Miss (no
already-attacked guard), after which the ship can never test as sunk —
all its cells are attacked, yet no call ever returns it as sunkShip. -/
theorem claim4_counterexample :
    (∀ c ∈ c4Ship.cells, c ∈ c4Moves) ∧
    (runAttacks c4Board [c4Ship] c4Moves).2.2.countP (namesCells c4Ship.cells)
      = 0 := by
  decide

/-- C4, amended: for a well-placed fleet (cells in bounds, ships
pairwise disjoint, the tracked ship unsunk with all its cells marked
Ship) and a duplicate-free attack sequence covering the ship's cells,
exactly one `resolveAttack` call returns that ship as `sunkShip`, and
the ship's record ends with its sunk flag set. -/
theorem claim4_sunk_fires_once (board : Board) (ships : List Ship) (j : Nat)
    (s : Ship) (moves : List Coord)
    (hget : ships[j]? = some s)
    (hne : s.cells ≠ [])
    (hsunk0 : s.sunk = false)
    (hWF : WF board)
    (hin : ∀ c ∈ s.cells, c.row < BOARD_SIZE ∧ c.col < BOARD_SIZE)
    (hfind : ∀ c ∈ s.cells, findShipIdx ships c.row c.col = some j)
    (hdisj : ∀ i t, ships[i]? = some t → i ≠ j → ∀ c ∈ t.cells, c ∉ s.cells)
    (hship : ∀ c ∈ s.cells, getCell board c.row c.col = CellState.ship)
    (hcover : ∀ c ∈ s.cells, c ∈ moves)
    (hnodup : moves.Nodup) :
    (runAttacks board ships moves).2.2.countP (namesCells s.cells) = 1 ∧
    (runAttacks board ships moves).2.1[j]? = some { s with sunk := true } := by
  have hstate : ∀ c ∈ s.cells, getCell board c.row c.col = CellState.ship ∨
      getCell board c.row c.col = CellState.hit :=
    fun c hc => Or.inl (hship c hc)
  have hsunkiff : s.sunk = true ↔
      ∀ c ∈ s.cells, getCell board c.row c.col = CellState.hit := by
    constructor
    · intro h
      rw [h] at hsunk0
      cases hsunk0
    · intro h
      obtain ⟨c0, hc0⟩ := List.exists_mem_of_ne_nil _ hne
      have hx := h c0 hc0
      rw [hship c0 hc0] at hx
      cases hx
  have hfresh : ∀ c ∈ s.cells,
      getCell board c.row c.col = CellState.hit → c ∉ moves := by
    intro c hc hhit
    rw [hship c hc] at hhit
    cases hhit
  obtain ⟨hcount, hfinal⟩ := runAttacks_invariant moves board ships j s hget hne
    hWF hin hfind hdisj hstate hsunkiff hfresh hnodup
  have hcondT : ∀ c ∈ s.cells,
      getCell board c.row c.col = CellState.hit ∨ c ∈ moves :=
    fun c hc => Or.inr (hcover c hc)
  constructor
  · rw [hcount, hsunk0]
    simp only [Bool.false_eq_true, if_false]
    rw [if_pos hcondT]
  · rw [hfinal, hsunk0, Bool.false_or, decide_eq_true hcondT]

/-- Witness for C4: the length-2 ship, attacked on each cell once. -/
theorem claim4_witness :
    (runAttacks c4Board [c4Ship] [⟨0, 0⟩, ⟨0, 1⟩]).2.2.countP
      (namesCells c4Ship.cells) = 1 ∧
    (runAttacks c4Board [c4Ship] [⟨0, 0⟩, ⟨0, 1⟩]).2.1[0]? =
      some { c4Ship with sunk := true } :=
  claim4_sunk_fires_once c4Board [c4Ship] 0 c4Ship [⟨0, 0⟩, ⟨0, 1⟩]
    (by decide) (by decide) (by decide) ⟨by decide, by decide⟩ (by decide)
    (by decide)
    (fun i t hgt hi0 => by
      cases i with
      | zero => exact absurd rfl hi0
      | succ n => simp at hgt)
    (by decide) (by decide) (by decide)

/-- C6: any coordinate `chooseAiMove` returns is inside the board and
not yet attacked, and it returns `none` only when every in-bounds cell
has already been attacked. -/
theorem claim6_ai_move_legal :
    ∀ (board : Board) (mem : AiMemory) (k : Nat),
      (∀ t : Coord, (chooseAiMove board mem k).1 = some t →
        t.row < BOARD_SIZE ∧ t.col < BOARD_SIZE ∧
        getCell board t.row t.col ≠ CellState.hit ∧
        getCell board t.row t.col ≠ CellState.miss) ∧
      ((chooseAiMove board mem k).1 = none →
        ∀ r c : Nat, r < BOARD_SIZE → c < BOARD_SIZE →
          getCell board r c = CellState.hit ∨
          getCell board r c = CellState.miss) := by
  intro board mem k
  constructor
  · intro t ht
    exact isValidAiTarget_coord (chooseAiMove_some_valid ht)
  · intro hnone r c hr hc
    by_contra hcon
    push_neg at hcon
    have hmem := huntAvailable_mem_of_fresh hr hc hcon.1 hcon.2
    rw [chooseAiMove_none_empty hnone] at hmem
    cases hmem

/-- Witness for C6: a fresh AI memory on an empty board picks (0,0). -/
theorem claim6_witness :
    (⟨0, 0⟩ : Coord).row < BOARD_SIZE ∧ (⟨0, 0⟩ : Coord).col < BOARD_SIZE ∧
    getCell (createEmptyBoard BOARD_SIZE) (⟨0, 0⟩ : Coord).row
      (⟨0, 0⟩ : Coord).col ≠ CellState.hit ∧
    getCell (createEmptyBoard BOARD_SIZE) (⟨0, 0⟩ : Coord).row
      (⟨0, 0⟩ : Coord).col ≠ CellState.miss :=
  (claim6_ai_move_legal (createEmptyBoard BOARD_SIZE) resetAiTargeting 0).1
    ⟨0, 0⟩ (by decide)

/-- C8: along any sequence of player-attack and AI-turn steps, a cell
marked Hit stays Hit and a cell marked Miss stays Miss, on both boards;
no step reverts an attacked cell. -/
theorem claim8_marked_cells_monotone :
    ∀ s s' : SystemState, Relation.ReflTransGen GameStep s s' →
    ∀ r c : Nat,
      (getCell s.game.playerBoard r c = CellState.hit →
        getCell s'.game.playerBoard r c = CellState.hit) ∧
      (getCell s.game.playerBoard r c = CellState.miss →
        getCell s'.game.playerBoard r c = CellState.miss) ∧
      (getCell s.game.enemyBoard r c = CellState.hit →
        getCell s'.game.enemyBoard r c = CellState.hit) ∧
      (getCell s.game.enemyBoard r c = CellState.miss →
        getCell s'.game.enemyBoard r c = CellState.miss) := by
  intro s s' hsteps r c
  induction hsteps with
  | refl => exact ⟨id, id, id, id⟩
  | tail hab hbc ihab =>
    refine ⟨?_, ?_, ?_, ?_⟩
    · intro hm
      exact (gameStep_marked hbc (Or.inl rfl)).1 (ihab.1 hm)
    · intro hm
      exact (gameStep_marked hbc (Or.inr rfl)).1 (ihab.2.1 hm)
    · intro hm
      exact (gameStep_marked hbc (Or.inl rfl)).2 (ihab.2.2.1 hm)
    · intro hm
      exact (gameStep_marked hbc (Or.inr rfl)).2 (ihab.2.2.2 hm)

/-- A state with a Hit already recorded at (0,0) of the player board. -/
def c8Sys : SystemState :=
  ⟨{ createGameState with
      playerBoard := setCell (createEmptyBoard BOARD_SIZE) 0 0 CellState.hit },
   0⟩

/-- Witness for C8: one AI-turn step preserves the marked cell. -/
theorem claim8_witness :
    getCell (aiTurnFire 0 c8Sys).game.playerBoard 0 0 = CellState.hit :=
  (claim8_marked_cells_monotone c8Sys (aiTurnFire 0 c8Sys)
    (Relation.ReflTransGen.single (GameStep.fire c8Sys 0)) 0 0).1 (by decide)

/-- C7: the directional candidates for the confirmed hits
[(3,4),(3,5)] are proposed as exactly (3,3) and (3,6) before filtering;
every candidate that survives the filter is an in-bounds,
not-yet-attacked cell; and in general a horizontal pair (r,a),(r,b)
with a ≤ b proposes the two cells just past the ends of the line. -/
theorem claim7_directional_candidates :
    directionalProposals [⟨3, 4⟩, ⟨3, 5⟩] = [⟨3, 3⟩, ⟨3, 6⟩] ∧
    (∀ (board : Board) (hits : List Coord) (t : Coord),
      t ∈ getDirectionalCandidates board hits →
      isValidAiTarget board t.row t.col = true) ∧
    (∀ r a b : Nat, a ≤ b →
      directionalProposals [⟨r, a⟩, ⟨r, b⟩] =
        [⟨r, (a : Int) - 1⟩, ⟨r, (b : Int) + 1⟩]) := by
  refine ⟨by decide, fun board hits t h => getDirectionalCandidates_valid h, ?_⟩
  intro r a b hab
  unfold directionalProposals
  rw [if_neg (by simp)]
  simp [List.insertionSort, List.orderedInsert, hab]

/-- Witness for C7: the general end-extension rule at the concrete
horizontal pair (3,4),(3,5). -/
theorem claim7_witness :
    directionalProposals [⟨3, 4⟩, ⟨3, 5⟩] =
      [⟨3, (4 : Int) - 1⟩, ⟨3, (5 : Int) + 1⟩] :=
  claim7_directional_candidates.2.2 3 4 5 (by decide)

/-- Draws that place the five catalog ships on rows 0..4, at column 0,
horizontally: draw n proposes (horizontal, row n mod 10, col 0). -/
def rowDraws : Nat → Bool × Fin 10 × Fin 10 :=
  fun n => (true, ⟨n % 10, Nat.mod_lt n (by decide)⟩, 0)

/-- A full setup: randomize, start, player attacks (9,9) — which misses
and schedules the deferred opponent move. -/
def c9AfterAttack : SystemState :=
  handleEnemyBoardClick
    (handleStartGame (handleRandomize ⟨createGameState, 0⟩ rowDraws) rowDraws)
    9 9

/-- Restart pressed while the opponent-move timer is still pending. -/
def c9AfterReset : SystemState := handleRestart c9AfterAttack

/-- A new game randomized and started before the stale timer fires. -/
def c9NewGame : SystemState :=
  handleStartGame (handleRandomize c9AfterReset rowDraws) rowDraws

/-- C9: the reset does not cancel the pending opponent-move timer
(`resetGameState` never calls `clearTimeout` — the repo's own bug log,
Bug 6, records that fix as applied, but it is absent).  The stale
callback survives into the next game: once the new game reaches the
playing phase, it fires during the player's turn and attacks the new
player board; and a further player attack schedules a second timer
while the stale one is still pending, so two timers coexist. -/
theorem claim9_stale_timer_corrupts :
    c9AfterAttack.pendingAi = 1 ∧
    c9AfterReset.pendingAi = 1 ∧
    c9NewGame.game.currentTurn = Turn.player ∧
    c9NewGame.pendingAi = 1 ∧
    (aiTurnFire 0 c9NewGame).game.playerBoard ≠ c9NewGame.game.playerBoard ∧
    getCell (aiTurnFire 0 c9NewGame).game.playerBoard 0 0 = CellState.hit ∧
    (handleEnemyBoardClick c9NewGame 9 9).pendingAi = 2 := by
  set_option maxRecDepth 100000 in decide

/-- C10: when the rotated placement is rejected, `handleRotateShip`
restores the board and the fleet exactly: every cell keeps its state
and every ship keeps its cell set. -/
theorem claim10_failed_rotation_atomic (g : GameState) (i : Nat) (ship : Ship)
    (startRow startCol : Nat)
    (hget : g.playerShips[i]? = some ship)
    (hlen : 0 < ship.length)
    (hcanon : ship.cells = shipCells ship.length startRow startCol ship.isHorizontal)
    (hWF : WF g.playerBoard)
    (hin : ∀ c ∈ ship.cells, c.row < BOARD_SIZE ∧ c.col < BOARD_SIZE)
    (hship : ∀ c ∈ ship.cells, getCell g.playerBoard c.row c.col = CellState.ship)
    (hfail : canPlaceShipN (removeShipFromBoard g.playerBoard ship) ship.length
      startRow startCol (!ship.isHorizontal) = false) :
    (∀ r c : Nat, getCell (handleRotateShip g i).playerBoard r c =
      getCell g.playerBoard r c) ∧
    (handleRotateShip g i).playerShips.map Ship.cells =
      g.playerShips.map Ship.cells := by
  have hhead : ship.cells.headD ⟨0, 0⟩ = (⟨startRow, startCol⟩ : Coord) := by
    rw [hcanon]
    obtain ⟨n, hn⟩ : ∃ n, ship.length = n + 1 := ⟨ship.length - 1, by omega⟩
    rw [hn]
    unfold shipCells
    rw [List.range_succ_eq_map]
    cases ship.isHorizontal <;> simp
  unfold handleRotateShip
  rw [hget]
  dsimp only
  rw [hhead]
  dsimp only
  rw [if_neg (by simp [hfail])]
  refine ⟨?_, ?_⟩
  · intro r c
    dsimp only
    unfold placeShip
    dsimp only
    rw [← hcanon]
    unfold removeShipFromBoard
    rw [getCell_foldl_setCell CellState.ship (WF_foldl_setCell _ hWF) hin r c,
        getCell_foldl_setCell CellState.empty hWF hin r c]
    by_cases hm : (⟨r, c⟩ : Coord) ∈ ship.cells
    · rw [if_pos hm]
      have hs := hship ⟨r, c⟩ hm
      simpa using hs.symm
    · rw [if_neg hm, if_neg hm]
  · dsimp only
    rw [List.map_set]
    have hcells2 : ({ (placeShip (removeShipFromBoard g.playerBoard ship)
        ship.length startRow startCol ship.isHorizontal).2 with
        id := ship.id } : Ship).cells = ship.cells := by
      unfold placeShip
      exact hcanon.symm
    rw [hcells2]
    apply set_get?_self
    rw [List.getElem?_map, hget]
    rfl

/-- The board for the C10 witness: a length-2 ship at (9,0)-(9,1). -/
def c10Board : Board := (placeShip (createEmptyBoard BOARD_SIZE) 2 9 0 true).1

/-- The C10 witness ship. -/
def c10Ship : Ship := (placeShip (createEmptyBoard BOARD_SIZE) 2 9 0 true).2

/-- The C10 witness game state: rotating this ship to vertical would run
off the bottom edge, so the rotation must fail and restore everything. -/
def c10Game : GameState :=
  { createGameState with playerBoard := c10Board, playerShips := [c10Ship] }

/-- Witness for C10: the failed rotation leaves cell (9,0) and the
fleet's cell sets unchanged. -/
theorem claim10_witness :
    getCell (handleRotateShip c10Game 0).playerBoard 9 0 =
      getCell c10Game.playerBoard 9 0 ∧
    (handleRotateShip c10Game 0).playerShips.map Ship.cells =
      c10Game.playerShips.map Ship.cells :=
  ⟨(claim10_failed_rotation_atomic c10Game 0 c10Ship 9 0 (by decide) (by decide)
      (by decide) ⟨by decide, by decide⟩ (by decide) (by decide) (by decide)).1 9 0,
   (claim10_failed_rotation_atomic c10Game 0 c10Ship 9 0 (by decide) (by decide)
      (by decide) ⟨by decide, by decide⟩ (by decide) (by decide) (by decide)).2⟩

end Battleship
